import Mathlib

/-!
Shallow embedding of `policy.py` (PolicyWithQs / PolicyWithValue / GuassianDistribution)
from the Safety_Index_Synthesis repository.

Modelling conventions:
* A parameter tensor is a flat list of rationals (`Tensor`); a network's weight list
  (`model.get_weights()` / `model.trainable_weights`) is a list of tensors (`Weights`).
  Float arithmetic is embedded as exact rational / real arithmetic.
* `MLPNet` (imported from the repository's `model.py`, which only exposes an opaque
  network here) is modelled as its ordered list of weight tensors.  Constructing a
  fresh `MLPNet` draws fresh parameter values; the draw is made explicit by passing
  the initial weights into `PolicyWithQs.init` (the `InitParams` record).
* Keras optimizers (Adam) are external library code; an optimizer application is
  modelled as an uninterpreted per-tensor step function
  `step : ℕ → Tensor → Tensor → Tensor` (optimizer index, current tensor, gradient
  tensor ↦ new tensor).  `optimizer.apply_gradients(zip(grads, vars))` pairs the
  gradient list with the variable list, truncating to the shorter one (Python `zip`
  semantics), and updates each paired variable.
* Python `for` loops that mutate `self` become folds over an explicit state.
-/

abbrev Tensor := List ℚ

abbrev Weights := List Tensor

/-- A network from `model.py`: an ordered list of weight tensors.  `get_weights`,
`set_weights` and `trainable_weights` all expose the same ordered list. -/
structure MLPNet where
  weights : Weights
deriving DecidableEq, Repr

def MLPNet.get_weights (m : MLPNet) : Weights := m.weights

def MLPNet.set_weights (w : Weights) : MLPNet := ⟨w⟩

def MLPNet.trainable_weights (m : MLPNet) : Weights := m.weights

/-- An entry of `self.models` in `PolicyWithQs`: either a network or the bare
`log_alpha` variable (a scalar `tf.Variable`). -/
inductive Model where
  | net (m : MLPNet)
  | scalar (v : ℚ)
deriving DecidableEq, Repr

/-- `model.trainable_weights if hasattr(model, 'trainable_weights') else [model]`:
a network contributes its weight list, the scalar variable contributes a single
one-element tensor. -/
def Model.trainableWeights : Model → Weights
  | .net m => m.weights
  | .scalar v => [[v]]

/-- One entry of the list returned by `PolicyWithQs.get_weights`:
`model.get_weights() if hasattr(model, 'get_weights') else model`. -/
inductive WeightItem where
  | net (w : Weights)
  | scalar (v : ℚ)
deriving DecidableEq, Repr

def Model.toItem : Model → WeightItem
  | .net m => .net m.weights
  | .scalar v => .scalar v

/-- Reading a `WeightItem` as a network weight list.  The `scalar` case cannot arise
when the item is applied to a network position of a snapshot produced by
`get_weights` (in the source a kind mismatch would raise inside Keras). -/
def WeightItem.asWeights : WeightItem → Weights
  | .net w => w
  | .scalar _ => []

/-- Reading a `WeightItem` as the scalar `log_alpha` value; the `net` case cannot
arise for well-formed snapshots. -/
def WeightItem.asScalar : WeightItem → ℚ
  | .scalar v => v
  | .net _ => 0

/-- State of a `PolicyWithQs` instance: the fields of `__init__` that the claims
are about.  `log_alpha_auto` records whether `args.log_alpha == 'auto'`;
`log_alpha` holds the current value of the variable (auto case) or the fixed
numeric value. -/
structure PolicyWithQs where
  Q_num : ℕ
  tau : ℚ
  delay_update : ℕ
  policy : MLPNet
  policy_target : MLPNet
  Qs : List MLPNet
  Q_targets : List MLPNet
  log_alpha_auto : Bool
  log_alpha : ℚ
deriving DecidableEq, Repr

/-- `self.models`: `self.Qs + (self.policy, self.log_alpha)` when
`args.log_alpha == 'auto'`, else `self.Qs + (self.policy,)`. -/
def PolicyWithQs.models (e : PolicyWithQs) : List Model :=
  e.Qs.map Model.net ++ [Model.net e.policy]
    ++ (if e.log_alpha_auto then [Model.scalar e.log_alpha] else [])

/-- `self.models[i]` (the default is unreachable: `models` is never empty and the
source only indexes in range). -/
def modelAt (e : PolicyWithQs) (i : ℕ) : Model :=
  e.models.getD i (Model.net ⟨[]⟩)

/-- Writing back the in-place mutation that the `i`-th optimizer performs on the
variables of `self.models[i]`: position `i` in the `models` layout is `Qs[i]`
for `i < len(Qs)`, the policy at `i = len(Qs)`, and the `log_alpha` variable at
`i = len(Qs) + 1` when it exists. -/
def setModelAt (e : PolicyWithQs) (i : ℕ) (w : Weights) : PolicyWithQs :=
  if i < e.Qs.length then { e with Qs := e.Qs.set i ⟨w⟩ }
  else if i = e.Qs.length then { e with policy := ⟨w⟩ }
  else if e.log_alpha_auto = true ∧ i = e.Qs.length + 1 then
    { e with log_alpha := (w.headD []).headD 0 }
  else e

/-- `[model.get_weights() if hasattr(model, 'get_weights') else model
for model in self.models]`. -/
def PolicyWithQs.get_weights (e : PolicyWithQs) : List WeightItem :=
  e.models.map Model.toItem

/-- Body of the `set_weights` loop at index `i`:
`self.models[i].set_weights(weight)` for a network position,
`self.models[i].assign(weight)` for the scalar position. -/
def setItemAt (e : PolicyWithQs) (i : ℕ) (item : WeightItem) : PolicyWithQs :=
  if i < e.Qs.length then { e with Qs := e.Qs.set i ⟨item.asWeights⟩ }
  else if i = e.Qs.length then { e with policy := ⟨item.asWeights⟩ }
  else if e.log_alpha_auto = true ∧ i = e.Qs.length + 1 then
    { e with log_alpha := item.asScalar }
  else e

/-- `for i, weight in enumerate(weights): ...` starting at index `i`. -/
def setWeightsFrom (e : PolicyWithQs) (i : ℕ) : List WeightItem → PolicyWithQs
  | [] => e
  | item :: rest => setWeightsFrom (setItemAt e i item) (i + 1) rest

def PolicyWithQs.set_weights (e : PolicyWithQs) (ws : List WeightItem) : PolicyWithQs :=
  setWeightsFrom e 0 ws

/-- Element-wise `tau * source + (1.0 - tau) * target` on one tensor. -/
def polyakTensor (tau : ℚ) (source target : Tensor) : Tensor :=
  List.zipWith (fun s t => tau * s + (1 - tau) * t) source target

/-- `[tau * source + (1.0 - tau) * target for source, target in
zip(source_params, target_params)]`. -/
def polyakWeights (tau : ℚ) (source target : Weights) : Weights :=
  List.zipWith (polyakTensor tau) source target

/-- `update_policy_target`: blends `policy` toward `policy_target` and writes the
result back onto `self.policy` (the source reassigns the policy itself, not the
target). -/
def PolicyWithQs.update_policy_target (e : PolicyWithQs) : PolicyWithQs :=
  { e with policy := ⟨polyakWeights e.tau e.policy.weights e.policy_target.weights⟩ }

/-- `update_Q_targets`: `for Q, Q_target in zip(self.Qs, self.Q_targets)` blend
each target toward its source.  Targets beyond the zipped prefix are untouched
(this suffix is empty whenever both lists have length `Q_num`). -/
def PolicyWithQs.update_Q_targets (e : PolicyWithQs) : PolicyWithQs :=
  { e with Q_targets :=
      (List.zipWith (fun Q Qt => MLPNet.mk (polyakWeights e.tau Q.weights Qt.weights))
        e.Qs e.Q_targets ++ e.Q_targets.drop e.Qs.length) }

/-- `optimizer.apply_gradients(zip(grads_slice, weights))`: the first
`min (length grads_slice) (length weights)` tensors are stepped, the rest keep
their values (Python `zip` truncates silently). -/
def applyPairs (step : Tensor → Tensor → Tensor) (w : Weights) (gs : List Tensor) : Weights :=
  List.zipWith (fun wt g => step wt g) w gs ++ w.drop gs.length

/-- `len(self.models[i].trainable_weights)`, recomputed at each loop index as in
the source. -/
def qL (e : PolicyWithQs) (i : ℕ) : ℕ :=
  ((modelAt e i).trainableWeights).length

/-- The gradient slice `grads[i*len_weights:(i+1)*len_weights]` taken by the Q
loop of `apply_gradients` at index `i`. -/
def qGradSlice (e : PolicyWithQs) (grads : List Tensor) (i : ℕ) : List Tensor :=
  (grads.drop (i * qL e i)).take (qL e i)

/-- One iteration of the Q loop of `apply_gradients`. -/
def qStep (step : ℕ → Tensor → Tensor → Tensor) (grads : List Tensor)
    (e : PolicyWithQs) (i : ℕ) : PolicyWithQs :=
  setModelAt e i (applyPairs (step i) ((modelAt e i).trainableWeights) (qGradSlice e grads i))

/-- `for i in range(self.args.Q_num): ...` — the always-executed Q-gradient loop. -/
def PolicyWithQs.qLoop (step : ℕ → Tensor → Tensor → Tensor) (grads : List Tensor)
    (e : PolicyWithQs) : PolicyWithQs :=
  (List.range e.Q_num).foldl (qStep step grads) e

/-- One iteration of the delayed loop: `weights = models[i].trainable_weights
(or [models[i]])`, `gradi_end = gradi_start + len(weights)`, apply the slice,
advance `gradi_start`. -/
def delayedStep (step : ℕ → Tensor → Tensor → Tensor) (grads : List Tensor)
    (s : PolicyWithQs × ℕ) (i : ℕ) : PolicyWithQs × ℕ :=
  let w := (modelAt s.1 i).trainableWeights
  (setModelAt s.1 i (applyPairs (step i) w ((grads.drop s.2).take w.length)),
    s.2 + w.length)

/-- `gradi_start = len(self.models[0].trainable_weights) * self.args.Q_num` —
the offset at which the policy slice begins, computed from the first model's
tensor count alone. -/
def delayedStart (e : PolicyWithQs) : ℕ := qL e 0 * e.Q_num

/-- `apply_gradients(iteration, grads)`: always run the Q loop; when
`iteration % delay_update == 0` also apply the policy (and log_alpha) slices,
then `update_policy_target()` and `update_Q_targets()`. -/
def PolicyWithQs.apply_gradients (step : ℕ → Tensor → Tensor → Tensor)
    (e : PolicyWithQs) (iteration : ℕ) (grads : List Tensor) : PolicyWithQs :=
  let e1 := PolicyWithQs.qLoop step grads e
  if iteration % e.delay_update = 0 then
    let e2 := ((List.range' e1.Q_num (e1.models.length - e1.Q_num)).foldl
      (delayedStep step grads) (e1, delayedStart e1)).1
    (e2.update_policy_target).update_Q_targets
  else e1

/-- The fresh initial weights drawn when `__init__` constructs its networks with
`MLPNet(...)`; each constructed network gets its own independent draw. -/
structure InitParams where
  policy_init : Weights
  policy_target_init : Weights
  Q_inits : List Weights
  Q_target_inits : List Weights
deriving DecidableEq, Repr

/-- `PolicyWithQs.__init__`: build `policy` and `policy_target` as two separately
constructed networks (no parameter copy between them), build the Qs and
Q_targets, then `for Q, Q_target in zip(self.Qs, self.Q_targets):
Q_target.set_weights(Q.get_weights())` — so each zipped Q_target becomes an
exact copy of its Q, while targets beyond the zipped prefix (none when both
lists have length `Q_num`) keep their fresh draws.  `log_alpha` starts at
`args.init_log_alpha` in the auto case, else holds the fixed value. -/
def PolicyWithQs.init (Q_num : ℕ) (tau : ℚ) (delay_update : ℕ)
    (log_alpha_mode_auto : Bool) (init_log_alpha fixed_log_alpha : ℚ)
    (ip : InitParams) : PolicyWithQs :=
  { Q_num := Q_num
    tau := tau
    delay_update := delay_update
    policy := ⟨ip.policy_init⟩
    policy_target := ⟨ip.policy_target_init⟩
    Qs := ip.Q_inits.map MLPNet.mk
    Q_targets := (List.zipWith (fun qi _ => MLPNet.mk qi) ip.Q_inits ip.Q_target_inits
      ++ (ip.Q_target_inits.map MLPNet.mk).drop ip.Q_inits.length)
    log_alpha_auto := log_alpha_mode_auto
    log_alpha := if log_alpha_mode_auto then init_log_alpha else fixed_log_alpha }

/-! ### Helper lemmas -/

theorem mlpnet_eta (m : MLPNet) : MLPNet.mk m.weights = m := rfl

theorem update_policy_target_policy (e : PolicyWithQs) :
    (e.update_policy_target).policy.weights
      = polyakWeights e.tau e.policy.weights e.policy_target.weights := rfl

theorem polyakWeights_getD (tau : ℚ) (s t : Weights) (i : ℕ)
    (hi : i < s.length) (hi' : i < t.length) :
    (polyakWeights tau s t).getD i [] = polyakTensor tau (s.getD i []) (t.getD i []) := by
  have hlen : i < (polyakWeights tau s t).length := by
    simp [polyakWeights, List.length_zipWith]; omega
  rw [List.getD_eq_getElem _ _ hlen, List.getD_eq_getElem _ _ hi, List.getD_eq_getElem _ _ hi']
  simp [polyakWeights]

theorem polyakTensor_getD (tau : ℚ) (s t : Tensor) (j : ℕ)
    (hj : j < s.length) (hj' : j < t.length) :
    (polyakTensor tau s t).getD j 0 = tau * s.getD j 0 + (1 - tau) * t.getD j 0 := by
  have hlen : j < (polyakTensor tau s t).length := by
    simp [polyakTensor, List.length_zipWith]; omega
  rw [List.getD_eq_getElem _ _ hlen, List.getD_eq_getElem _ _ hj, List.getD_eq_getElem _ _ hj']
  simp [polyakTensor]

/-! ### C1 -/

/-- C1: `update_policy_target` writes the element-wise convex combination
`tau * policy + (1 - tau) * policy_target` back onto the policy group itself and
leaves the `policy_target` group unchanged. -/
theorem update_policy_target_blends_onto_policy (e : PolicyWithQs) (i j : ℕ)
    (hi : i < e.policy.weights.length) (hi' : i < e.policy_target.weights.length)
    (hj : j < (e.policy.weights.getD i []).length)
    (hj' : j < (e.policy_target.weights.getD i []).length) :
    ((e.update_policy_target).policy.weights.getD i []).getD j 0
      = e.tau * ((e.policy.weights.getD i []).getD j 0)
        + (1 - e.tau) * ((e.policy_target.weights.getD i []).getD j 0)
    ∧ (e.update_policy_target).policy_target = e.policy_target := by
  constructor
  · rw [update_policy_target_policy, polyakWeights_getD e.tau _ _ i hi hi',
      polyakTensor_getD e.tau _ _ j hj hj']
  · rfl

/-- Concrete instance used by several witnesses. -/
def E1 : PolicyWithQs :=
  { Q_num := 1
    tau := 1/2
    delay_update := 1
    policy := ⟨[[1, 2]]⟩
    policy_target := ⟨[[3, 4]]⟩
    Qs := [⟨[[5]]⟩]
    Q_targets := [⟨[[6]]⟩]
    log_alpha_auto := false
    log_alpha := 0 }

/-- Witness for C1 at the concrete state `E1`. -/
theorem update_policy_target_blends_onto_policy_witness :
    ((E1.update_policy_target).policy.weights.getD 0 []).getD 0 0
      = E1.tau * ((E1.policy.weights.getD 0 []).getD 0 0)
        + (1 - E1.tau) * ((E1.policy_target.weights.getD 0 []).getD 0 0)
    ∧ (E1.update_policy_target).policy_target = E1.policy_target :=
  update_policy_target_blends_onto_policy E1 0 0 (by decide) (by decide)
    (by decide) (by decide)

/-! ### Positional lemmas about `models` -/

theorem getD_append_lt {α : Type} (A rest : List α) (i : ℕ) (d : α)
    (h : i < A.length) : (A ++ rest).getD i d = A.getD i d := by
  induction A generalizing i with
  | nil => simp at h
  | cons a t ih =>
    cases i with
    | zero => rfl
    | succ n => simpa using ih n (by simpa using h)

theorem getD_append_len {α : Type} (A rest : List α) (d : α) :
    (A ++ rest).getD A.length d = rest.getD 0 d := by
  induction A with
  | nil => rfl
  | cons a t ih => simpa using ih

theorem getD_append_len_succ {α : Type} (A rest : List α) (d : α) (n : ℕ) :
    (A ++ rest).getD (A.length + n) d = rest.getD n d := by
  induction A with
  | nil => simp
  | cons a t ih => simpa [Nat.succ_add] using ih

theorem set_self {α : Type} (l : List α) (i : ℕ) (h : i < l.length) :
    l.set i l[i] = l := by
  induction l generalizing i with
  | nil => simp at h
  | cons a t ih =>
    cases i with
    | zero => rfl
    | succ n => simpa using ih n (by simpa using h)

theorem models_decomp (e : PolicyWithQs) :
    e.models = e.Qs.map Model.net
      ++ (Model.net e.policy
        :: (if e.log_alpha_auto then [Model.scalar e.log_alpha] else [])) := by
  simp [PolicyWithQs.models]

theorem modelAt_lt (e : PolicyWithQs) (i : ℕ) (h : i < e.Qs.length) :
    modelAt e i = Model.net (e.Qs.getD i ⟨[]⟩) := by
  rw [modelAt, models_decomp, getD_append_lt _ _ i _ (by simpa using h)]
  rw [List.getD_eq_getElem _ _ (by simpa using h), List.getD_eq_getElem _ _ h]
  simp

theorem modelAt_policy (e : PolicyWithQs) :
    modelAt e e.Qs.length = Model.net e.policy := by
  have hl : e.Qs.length = (e.Qs.map Model.net).length := by simp
  rw [modelAt, models_decomp, hl, getD_append_len]
  rfl

theorem modelAt_alpha (e : PolicyWithQs) (h : e.log_alpha_auto = true) :
    modelAt e (e.Qs.length + 1) = Model.scalar e.log_alpha := by
  have hl : e.Qs.length + 1 = (e.Qs.map Model.net).length + 1 := by simp
  rw [modelAt, models_decomp, hl, getD_append_len_succ]
  simp [h, List.getD]

/-! ### Frame lemmas for `setModelAt` and the gradient loops -/

theorem setModelAt_frame (e : PolicyWithQs) (i : ℕ) (w : Weights) :
    (setModelAt e i w).policy_target = e.policy_target
    ∧ (setModelAt e i w).Q_targets = e.Q_targets
    ∧ (setModelAt e i w).tau = e.tau
    ∧ (setModelAt e i w).Q_num = e.Q_num
    ∧ (setModelAt e i w).delay_update = e.delay_update
    ∧ (setModelAt e i w).log_alpha_auto = e.log_alpha_auto
    ∧ (setModelAt e i w).Qs.length = e.Qs.length := by
  unfold setModelAt
  split_ifs <;> simp

theorem setModelAt_lt_eq (e : PolicyWithQs) (i : ℕ) (w : Weights)
    (h : i < e.Qs.length) : setModelAt e i w = { e with Qs := e.Qs.set i ⟨w⟩ } := by
  simp [setModelAt, h]

theorem setModelAt_ge_Qs (e : PolicyWithQs) (i : ℕ) (w : Weights)
    (h : e.Qs.length ≤ i) : (setModelAt e i w).Qs = e.Qs := by
  unfold setModelAt
  split_ifs with h1 h2 h3 <;> first | omega | rfl

theorem setModelAt_self (e : PolicyWithQs) (i : ℕ) :
    setModelAt e i ((modelAt e i).trainableWeights) = e := by
  rcases Nat.lt_or_ge i e.Qs.length with h | h
  · rw [modelAt_lt e i h, setModelAt_lt_eq e i _ h]
    have : (Model.net (e.Qs.getD i ⟨[]⟩)).trainableWeights = (e.Qs.getD i ⟨[]⟩).weights := rfl
    rw [this, List.getD_eq_getElem _ _ h, mlpnet_eta, set_self _ _ h]
  · rcases Nat.eq_or_lt_of_le h with h0 | h1
    · rw [← h0, modelAt_policy]
      have hni : ¬ i < e.Qs.length := by omega
      simp [setModelAt, hni, ← h0, Model.trainableWeights, mlpnet_eta]
    · rcases Nat.eq_or_lt_of_le h1 with h2 | h3
      · cases hauto : e.log_alpha_auto with
        | true =>
          rw [← h2, modelAt_alpha e hauto]
          have hni : ¬ e.Qs.length + 1 < e.Qs.length := by omega
          have hne : ¬ e.Qs.length + 1 = e.Qs.length := by omega
          have hcond : e.log_alpha_auto = true ∧ e.Qs.length + 1 = e.Qs.length + 1 :=
            ⟨hauto, rfl⟩
          rw [setModelAt, if_neg hni, if_neg hne, if_pos hcond]
          rfl
        | false =>
          have hni : ¬ i < e.Qs.length := by omega
          have hne : ¬ i = e.Qs.length := by omega
          simp [setModelAt, hni, hne, hauto]
      · have hni : ¬ i < e.Qs.length := by omega
        have hne : ¬ i = e.Qs.length := by omega
        have hne' : ¬ i = e.Qs.length + 1 := by omega
        simp [setModelAt, hni, hne, hne']

theorem qStep_frame (step : ℕ → Tensor → Tensor → Tensor) (grads : List Tensor)
    (e : PolicyWithQs) (i : ℕ) (h : i < e.Qs.length) :
    (qStep step grads e i).policy = e.policy
    ∧ (qStep step grads e i).policy_target = e.policy_target
    ∧ (qStep step grads e i).Q_targets = e.Q_targets
    ∧ (qStep step grads e i).log_alpha = e.log_alpha
    ∧ (qStep step grads e i).log_alpha_auto = e.log_alpha_auto
    ∧ (qStep step grads e i).tau = e.tau
    ∧ (qStep step grads e i).Q_num = e.Q_num
    ∧ (qStep step grads e i).delay_update = e.delay_update
    ∧ (qStep step grads e i).Qs.length = e.Qs.length := by
  rw [qStep, setModelAt_lt_eq _ _ _ h]
  simp

theorem foldl_qStep_frame (step : ℕ → Tensor → Tensor → Tensor) (grads : List Tensor) :
    ∀ (l : List ℕ) (e : PolicyWithQs), (∀ i ∈ l, i < e.Qs.length) →
    (l.foldl (qStep step grads) e).policy = e.policy
    ∧ (l.foldl (qStep step grads) e).policy_target = e.policy_target
    ∧ (l.foldl (qStep step grads) e).Q_targets = e.Q_targets
    ∧ (l.foldl (qStep step grads) e).log_alpha = e.log_alpha
    ∧ (l.foldl (qStep step grads) e).log_alpha_auto = e.log_alpha_auto
    ∧ (l.foldl (qStep step grads) e).tau = e.tau
    ∧ (l.foldl (qStep step grads) e).Q_num = e.Q_num
    ∧ (l.foldl (qStep step grads) e).delay_update = e.delay_update
    ∧ (l.foldl (qStep step grads) e).Qs.length = e.Qs.length := by
  intro l
  induction l with
  | nil => intro e _; simp
  | cons i t ih =>
    intro e hmem
    have hi : i < e.Qs.length := hmem i (by simp)
    obtain ⟨f1, f2, f3, f4, f5, f6, f7, f8, f9⟩ := qStep_frame step grads e i hi
    have hmem' : ∀ j ∈ t, j < (qStep step grads e i).Qs.length := by
      intro j hj
      rw [f9]
      exact hmem j (by simp [hj])
    obtain ⟨g1, g2, g3, g4, g5, g6, g7, g8, g9⟩ := ih (qStep step grads e i) hmem'
    refine ⟨?_, ?_, ?_, ?_, ?_, ?_, ?_, ?_, ?_⟩ <;> simp [List.foldl_cons] <;>
      first
        | rw [g1, f1] | rw [g2, f2] | rw [g3, f3] | rw [g4, f4] | rw [g5, f5]
        | rw [g6, f6] | rw [g7, f7] | rw [g8, f8] | rw [g9, f9]

theorem qLoop_frame (step : ℕ → Tensor → Tensor → Tensor) (grads : List Tensor)
    (e : PolicyWithQs) (hQ : e.Q_num ≤ e.Qs.length) :
    (PolicyWithQs.qLoop step grads e).policy = e.policy
    ∧ (PolicyWithQs.qLoop step grads e).policy_target = e.policy_target
    ∧ (PolicyWithQs.qLoop step grads e).Q_targets = e.Q_targets
    ∧ (PolicyWithQs.qLoop step grads e).log_alpha = e.log_alpha
    ∧ (PolicyWithQs.qLoop step grads e).log_alpha_auto = e.log_alpha_auto
    ∧ (PolicyWithQs.qLoop step grads e).tau = e.tau
    ∧ (PolicyWithQs.qLoop step grads e).Q_num = e.Q_num
    ∧ (PolicyWithQs.qLoop step grads e).delay_update = e.delay_update
    ∧ (PolicyWithQs.qLoop step grads e).Qs.length = e.Qs.length := by
  apply foldl_qStep_frame
  intro i hi
  rw [List.mem_range] at hi
  omega

theorem delayedStep_frame (step : ℕ → Tensor → Tensor → Tensor) (grads : List Tensor)
    (s : PolicyWithQs × ℕ) (i : ℕ) (h : s.1.Qs.length ≤ i) :
    (delayedStep step grads s i).1.Qs = s.1.Qs
    ∧ (delayedStep step grads s i).1.Q_targets = s.1.Q_targets
    ∧ (delayedStep step grads s i).1.tau = s.1.tau
    ∧ (delayedStep step grads s i).1.Q_num = s.1.Q_num := by
  obtain ⟨fr1, fr2, fr3, fr4, _⟩ := setModelAt_frame s.1 i
    (applyPairs (step i) ((modelAt s.1 i).trainableWeights)
      ((grads.drop s.2).take ((modelAt s.1 i).trainableWeights).length))
  exact ⟨setModelAt_ge_Qs s.1 i _ h, fr2, fr3, fr4⟩

theorem foldl_delayedStep_frame (step : ℕ → Tensor → Tensor → Tensor) (grads : List Tensor) :
    ∀ (l : List ℕ) (s : PolicyWithQs × ℕ), (∀ i ∈ l, s.1.Qs.length ≤ i) →
    (l.foldl (delayedStep step grads) s).1.Qs = s.1.Qs
    ∧ (l.foldl (delayedStep step grads) s).1.Q_targets = s.1.Q_targets
    ∧ (l.foldl (delayedStep step grads) s).1.tau = s.1.tau
    ∧ (l.foldl (delayedStep step grads) s).1.Q_num = s.1.Q_num := by
  intro l
  induction l with
  | nil => intro s _; simp
  | cons i t ih =>
    intro s hmem
    have hi : s.1.Qs.length ≤ i := hmem i (by simp)
    obtain ⟨f1, f2, f3, f4⟩ := delayedStep_frame step grads s i hi
    have hmem' : ∀ j ∈ t, (delayedStep step grads s i).1.Qs.length ≤ j := by
      intro j hj
      rw [f1]
      exact hmem j (by simp [hj])
    obtain ⟨g1, g2, g3, g4⟩ := ih (delayedStep step grads s i) hmem'
    exact ⟨by rw [List.foldl_cons, g1, f1], by rw [List.foldl_cons, g2, f2],
      by rw [List.foldl_cons, g3, f3], by rw [List.foldl_cons, g4, f4]⟩

/-! ### C4 -/

/-- C4: on a non-delayed iteration (`iteration % delay_update ≠ 0`)
`apply_gradients` only touches the Q groups: the policy, the policy target,
every Q target - and the log_alpha value - are exactly what they were before
the call. -/
theorem apply_gradients_nondelayed_frame (step : ℕ → Tensor → Tensor → Tensor)
    (e : PolicyWithQs) (iteration : ℕ) (grads : List Tensor)
    (hQ : e.Q_num ≤ e.Qs.length) (hit : iteration % e.delay_update ≠ 0) :
    (e.apply_gradients step iteration grads).policy = e.policy
    ∧ (e.apply_gradients step iteration grads).policy_target = e.policy_target
    ∧ (e.apply_gradients step iteration grads).Q_targets = e.Q_targets
    ∧ (e.apply_gradients step iteration grads).log_alpha = e.log_alpha := by
  obtain ⟨f1, f2, f3, f4, _⟩ := qLoop_frame step grads e hQ
  rw [PolicyWithQs.apply_gradients]
  simp only [hit, if_neg, reduceIte]
  exact ⟨f1, f2, f3, f4⟩

/-- Witness for C4 at the concrete state `E1` (with `delay_update = 1` replaced
by 2 via a sibling state so that iteration 1 is non-delayed). -/
def E4 : PolicyWithQs := { E1 with delay_update := 2 }

/-- Concrete gradient step used by witnesses: plain gradient descent with unit
learning rate. -/
def descentStep : ℕ → Tensor → Tensor → Tensor :=
  fun _ t g => List.zipWith (fun a b => a - b) t g

theorem apply_gradients_nondelayed_frame_witness :
    (E4.apply_gradients descentStep 1 [[10]]).policy = E4.policy
    ∧ (E4.apply_gradients descentStep 1 [[10]]).policy_target = E4.policy_target
    ∧ (E4.apply_gradients descentStep 1 [[10]]).Q_targets = E4.Q_targets
    ∧ (E4.apply_gradients descentStep 1 [[10]]).log_alpha = E4.log_alpha :=
  apply_gradients_nondelayed_frame descentStep E4 1 [[10]] (by decide) (by decide)

/-! ### C5 -/

theorem update_policy_target_frame (e : PolicyWithQs) :
    (e.update_policy_target).Qs = e.Qs
    ∧ (e.update_policy_target).Q_targets = e.Q_targets
    ∧ (e.update_policy_target).tau = e.tau := ⟨rfl, rfl, rfl⟩

/-- C5: on a delayed iteration (`iteration % delay_update = 0`), after
`apply_gradients` returns, every `Q_target` equals the element-wise Polyak blend
`tau * Q_post + (1 - tau) * Q_target_pre`, where `Q_post` are the Q parameters
after this call's gradient step (the final `Qs` of the returned state) and
`Q_target_pre` are the targets from before the call. -/
theorem apply_gradients_delayed_polyak (step : ℕ → Tensor → Tensor → Tensor)
    (e : PolicyWithQs) (iteration : ℕ) (grads : List Tensor)
    (hQ : e.Qs.length = e.Q_num) (hQt : e.Q_targets.length = e.Q_num)
    (hit : iteration % e.delay_update = 0) :
    (e.apply_gradients step iteration grads).Q_targets
      = List.zipWith
          (fun Q Qt => MLPNet.mk (polyakWeights e.tau Q.weights Qt.weights))
          (e.apply_gradients step iteration grads).Qs e.Q_targets := by
  obtain ⟨p1, p2, p3, p4, p5, p6, p7, p8, p9⟩ :=
    qLoop_frame step grads e (le_of_eq hQ.symm)
  rw [PolicyWithQs.apply_gradients]
  simp only [hit, reduceIte]
  set e1 := PolicyWithQs.qLoop step grads e with he1
  have hmem : ∀ i ∈ List.range' e1.Q_num (e1.models.length - e1.Q_num),
      (e1, delayedStart e1).1.Qs.length ≤ i := by
    intro i hi
    have hr := List.mem_range'_1.mp hi
    have hlen : e1.Qs.length = e1.Q_num := by rw [p9, p7, hQ]
    show e1.Qs.length ≤ i
    omega
  obtain ⟨d1, d2, d3, d4⟩ := foldl_delayedStep_frame step grads
    (List.range' e1.Q_num (e1.models.length - e1.Q_num)) (e1, delayedStart e1) hmem
  set e2 := ((List.range' e1.Q_num (e1.models.length - e1.Q_num)).foldl
    (delayedStep step grads) (e1, delayedStart e1)).1 with he2
  have hq2 : e2.Qs = e1.Qs := d1
  have hqt2 : e2.Q_targets = e.Q_targets := by rw [d2, p3]
  have htau2 : e2.tau = e.tau := by rw [d3, p6]
  have hdrop : e2.Q_targets.drop e2.Qs.length = [] := by
    apply List.drop_eq_nil_of_le
    rw [hqt2, hq2, p9, hQt, hQ]
  rw [PolicyWithQs.update_Q_targets]
  simp only [PolicyWithQs.update_policy_target]
  simp only [hdrop, List.append_nil]
  rw [hqt2, htau2]

theorem apply_gradients_delayed_polyak_witness :
    (E1.apply_gradients descentStep 1 [[10], [20]]).Q_targets
      = List.zipWith
          (fun Q Qt => MLPNet.mk (polyakWeights E1.tau Q.weights Qt.weights))
          (E1.apply_gradients descentStep 1 [[10], [20]]).Qs E1.Q_targets :=
  apply_gradients_delayed_polyak descentStep E1 1 [[10], [20]]
    (by decide) (by decide) (by decide)

/-! ### C6 -/

theorem applyPairs_nil (step : Tensor → Tensor → Tensor) (w : Weights) :
    applyPairs step w [] = w := by
  simp [applyPairs]

theorem qStep_nil (step : ℕ → Tensor → Tensor → Tensor) (e : PolicyWithQs) (i : ℕ) :
    qStep step [] e i = e := by
  have hslice : qGradSlice e [] i = [] := by simp [qGradSlice]
  rw [qStep, hslice, applyPairs_nil, setModelAt_self]

/-- The flattened `trainable_weights` property (`tf.nest.flatten` over the
optimized groups, in `models` order). -/
def PolicyWithQs.trainable_weights (e : PolicyWithQs) : Weights :=
  (e.models.map Model.trainableWeights).flatten

/-- C6 counterexample state: one Q network with two weight tensors, so the
optimized groups hold three tensors in total while the supplied gradient vector
holds one. -/
def E6 : PolicyWithQs :=
  { Q_num := 1
    tau := 1/2
    delay_update := 2
    policy := ⟨[[0]]⟩
    policy_target := ⟨[[0]]⟩
    Qs := [⟨[[1], [2]]⟩]
    Q_targets := [⟨[[9], [9]]⟩]
    log_alpha_auto := false
    log_alpha := 0 }

/-- C6 counterexample: a gradient vector whose length disagrees with the
summed trainable count does not raise — the source performs no length check, and
`zip` silently truncates: the lone gradient updates the first Q tensor while the
second Q tensor keeps its old value (partial application). -/
theorem apply_gradients_mismatch_silently_truncates :
    ([[10]] : List Tensor).length ≠ E6.trainable_weights.length
    ∧ E6.apply_gradients descentStep 1 [[10]]
        = { E6 with Qs := [⟨[[-9], [2]]⟩] } := by
  constructor
  · decide
  · simp only [PolicyWithQs.apply_gradients, PolicyWithQs.qLoop, E6, qStep,
      qGradSlice, qL, modelAt, setModelAt, PolicyWithQs.models, applyPairs,
      descentStep, Model.trainableWeights, List.range_succ, List.range_zero]
    norm_num [qStep, qGradSlice, qL, modelAt, setModelAt, PolicyWithQs.models,
      applyPairs, descentStep, Model.trainableWeights, List.getD]

/-- C6 amended: `apply_gradients` performs no gradient-length validation and
never raises; a mismatched gradient vector is applied as far as it reaches and
the remaining parameters are silently left unchanged.  In the extreme case of an
empty gradient vector, a non-delayed call returns the state completely
unchanged. -/
theorem apply_gradients_no_length_check (step : ℕ → Tensor → Tensor → Tensor)
    (e : PolicyWithQs) (iteration : ℕ) (hit : iteration % e.delay_update ≠ 0) :
    e.apply_gradients step iteration [] = e := by
  rw [PolicyWithQs.apply_gradients]
  simp only [hit, reduceIte]
  rw [PolicyWithQs.qLoop]
  induction List.range e.Q_num with
  | nil => rfl
  | cons i t ih => rw [List.foldl_cons, qStep_nil]; exact ih

theorem apply_gradients_no_length_check_witness :
    E6.apply_gradients descentStep 1 [] = E6 :=
  apply_gradients_no_length_check descentStep E6 1 (by decide)

/-! ### C2 -/

theorem setWeightsFrom_append (ws1 : List WeightItem) :
    ∀ (ws2 : List WeightItem) (e : PolicyWithQs) (i : ℕ),
    setWeightsFrom e i (ws1 ++ ws2)
      = setWeightsFrom (setWeightsFrom e i ws1) (i + ws1.length) ws2 := by
  induction ws1 with
  | nil => intro ws2 e i; simp [setWeightsFrom]
  | cons a t ih =>
    intro ws2 e i
    rw [List.cons_append, setWeightsFrom, setWeightsFrom, ih]
    congr 1
    simp
    omega

theorem set_append_cons {α : Type} (pre : List α) (a : α) (rest : List α) (x : α) :
    (pre ++ a :: rest).set pre.length x = pre ++ x :: rest := by
  induction pre with
  | nil => rfl
  | cons p t ih => simp [ih]

theorem map_mk_weights (l : List MLPNet) :
    l.map (fun q => MLPNet.mk q.weights) = l := by
  induction l with
  | nil => rfl
  | cons a t ih => simp [ih]

theorem setFrom_nets (qs : List Weights) :
    ∀ (pre old : List MLPNet) (e : PolicyWithQs),
    e.Qs = pre ++ old → old.length = qs.length →
    setWeightsFrom e pre.length (qs.map WeightItem.net)
      = { e with Qs := pre ++ qs.map MLPNet.mk } := by
  induction qs with
  | nil =>
    intro pre old e hQs hlen
    have hold : old = [] := List.length_eq_zero.mp (by simpa using hlen)
    rw [List.map_nil, setWeightsFrom, List.map_nil, List.append_nil]
    rw [hold, List.append_nil] at hQs
    rw [← hQs]
  | cons q qt ih =>
    intro pre old e hQs hlen
    cases old with
    | nil => simp at hlen
    | cons o ot =>
      rw [List.map_cons, setWeightsFrom]
      have hlt : pre.length < e.Qs.length := by
        rw [hQs]; simp
      have hset : setItemAt e pre.length (WeightItem.net q)
          = { e with Qs := pre ++ MLPNet.mk q :: ot } := by
        rw [setItemAt, if_pos hlt, hQs, WeightItem.asWeights, set_append_cons]
      rw [hset]
      have hstep := ih (pre ++ [MLPNet.mk q]) ot
        { e with Qs := pre ++ MLPNet.mk q :: ot } (by simp) (by simpa using hlen)
      simp only [List.length_append, List.length_cons, List.length_nil] at hstep
      rw [show pre.length + 1 = pre.length + (0 + 1) from by omega] at hstep
      rw [hstep]
      simp

theorem get_weights_decomp (e : PolicyWithQs) :
    e.get_weights = ((e.Qs.map MLPNet.weights).map WeightItem.net)
      ++ (WeightItem.net e.policy.weights
        :: (if e.log_alpha_auto then [WeightItem.scalar e.log_alpha] else [])) := by
  rw [PolicyWithQs.get_weights, models_decomp, List.map_append, List.map_cons]
  cases h : e.log_alpha_auto <;> simp [Model.toItem]

/-- C2 counterexample states: identical except for `policy_target` and the Q
targets, which `get_weights` does not cover. -/
def E2a : PolicyWithQs := { E1 with policy_target := ⟨[[5]]⟩, Q_targets := [⟨[[5]]⟩] }

def E2b : PolicyWithQs := { E1 with policy_target := ⟨[[7]]⟩, Q_targets := [⟨[[7]]⟩] }

/-- C2 counterexample: two states that differ (only) in `policy_target` and
`Q_targets` produce the same `get_weights` snapshot, so the snapshot covers
neither group, and restoring the snapshot of the first state into the second
leaves the second state's targets in place instead of restoring them. -/
theorem get_weights_misses_target_groups :
    PolicyWithQs.get_weights E2a = PolicyWithQs.get_weights E2b
    ∧ E2a.policy_target ≠ E2b.policy_target
    ∧ E2a.Q_targets ≠ E2b.Q_targets
    ∧ (E2b.set_weights E2a.get_weights).policy_target ≠ E2a.policy_target
    ∧ (E2b.set_weights E2a.get_weights).Q_targets ≠ E2a.Q_targets := by
  refine ⟨by decide, by decide, by decide, by decide, by decide⟩

/-- C2 amended: the snapshot returned by `get_weights` covers all Q groups, the
policy group, and `log_alpha` when it is trainable; `set_weights` on such a
snapshot restores exactly those groups and leaves the receiving state's
`policy_target` and `Q_targets` untouched. -/
theorem set_weights_restores_covered_groups (e e' : PolicyWithQs)
    (hQ : e'.Qs.length = e.Qs.length) (ha : e'.log_alpha_auto = e.log_alpha_auto) :
    (e'.set_weights e.get_weights).Qs = e.Qs
    ∧ (e'.set_weights e.get_weights).policy = e.policy
    ∧ (e.log_alpha_auto = true → (e'.set_weights e.get_weights).log_alpha = e.log_alpha)
    ∧ (e.log_alpha_auto = false → (e'.set_weights e.get_weights).log_alpha = e'.log_alpha)
    ∧ (e'.set_weights e.get_weights).policy_target = e'.policy_target
    ∧ (e'.set_weights e.get_weights).Q_targets = e'.Q_targets := by
  rw [PolicyWithQs.set_weights, get_weights_decomp, setWeightsFrom_append]
  have hph1 : setWeightsFrom e' 0 ((e.Qs.map MLPNet.weights).map WeightItem.net)
      = { e' with Qs := (e.Qs.map MLPNet.weights).map MLPNet.mk } := by
    have := setFrom_nets (e.Qs.map MLPNet.weights) [] e'.Qs e' (by simp)
      (by simp [hQ])
    simpa using this
  have hqs : (e.Qs.map MLPNet.weights).map MLPNet.mk = e.Qs := by
    rw [List.map_map]
    exact map_mk_weights e.Qs
  rw [hph1, hqs]
  set r1 : PolicyWithQs := { e' with Qs := e.Qs } with hr1
  have hidx : 0 + ((e.Qs.map MLPNet.weights).map WeightItem.net).length
      = r1.Qs.length := by simp
  rw [hidx, setWeightsFrom]
  have hpol : setItemAt r1 r1.Qs.length (WeightItem.net e.policy.weights)
      = { r1 with policy := e.policy } := by
    rw [setItemAt, if_neg (by omega), if_pos rfl]
    rfl
  rw [hpol]
  cases hauto : e.log_alpha_auto with
  | false =>
    rw [if_neg (by simp [hauto])]
    exact ⟨rfl, rfl, by simp, fun _ => rfl, rfl, rfl⟩
  | true =>
    rw [if_pos (by simp [hauto])]
    set r2 : PolicyWithQs := { r1 with policy := e.policy } with hr2
    rw [setWeightsFrom]
    have hcond : r2.log_alpha_auto = true ∧ r1.Qs.length + 1 = r2.Qs.length + 1 := by
      constructor
      · show e'.log_alpha_auto = true
        rw [ha, hauto]
      · rfl
    have halph : setItemAt r2 (r1.Qs.length + 1) (WeightItem.scalar e.log_alpha)
        = { r2 with log_alpha := e.log_alpha } := by
      rw [setItemAt, if_neg (by show ¬ r1.Qs.length + 1 < r2.Qs.length; omega),
        if_neg (by show ¬ r1.Qs.length + 1 = r2.Qs.length; omega), if_pos hcond]
      rfl
    rw [halph, setWeightsFrom]
    exact ⟨rfl, rfl, fun _ => rfl, by simp, rfl, rfl⟩

/-- Witness states for the amended C2 theorem. -/
def E2c : PolicyWithQs :=
  { Q_num := 1
    tau := 1/2
    delay_update := 1
    policy := ⟨[[8]]⟩
    policy_target := ⟨[[8]]⟩
    Qs := [⟨[[8]]⟩]
    Q_targets := [⟨[[8]]⟩]
    log_alpha_auto := false
    log_alpha := 3 }

theorem set_weights_restores_covered_groups_witness :
    (E2c.set_weights E1.get_weights).Qs = E1.Qs
    ∧ (E2c.set_weights E1.get_weights).policy = E1.policy
    ∧ (E1.log_alpha_auto = true → (E2c.set_weights E1.get_weights).log_alpha = E1.log_alpha)
    ∧ (E1.log_alpha_auto = false → (E2c.set_weights E1.get_weights).log_alpha = E2c.log_alpha)
    ∧ (E2c.set_weights E1.get_weights).policy_target = E2c.policy_target
    ∧ (E2c.set_weights E1.get_weights).Q_targets = E2c.Q_targets :=
  set_weights_restores_covered_groups E1 E2c (by decide) (by decide)

/-! ### C3 -/

theorem zipWith_mk_left (A : List Weights) :
    ∀ (B : List Weights), A.length = B.length →
    List.zipWith (fun qi _ => MLPNet.mk qi) A B = A.map MLPNet.mk := by
  induction A with
  | nil => intro B _; simp
  | cons a t ih =>
    intro B hlen
    cases B with
    | nil => simp at hlen
    | cons b bt => simp [ih bt (by simpa using hlen)]

/-- C3 counterexample inputs: distinct fresh draws for every constructed
network. -/
def IP3 : InitParams :=
  { policy_init := [[0]]
    policy_target_init := [[1]]
    Q_inits := [[[2]]]
    Q_target_inits := [[[3]]] }

/-- C3 counterexample: the constructor copies each Q group onto its Q_target,
but performs no copy from `policy` to `policy_target` — with distinct fresh
draws the constructed `policy_target` differs from the constructed `policy`,
while `Q_targets` and `Qs` coincide. -/
theorem init_policy_target_not_copied :
    (PolicyWithQs.init 1 1 1 false 0 0 IP3).policy_target.weights
        ≠ (PolicyWithQs.init 1 1 1 false 0 0 IP3).policy.weights
    ∧ (PolicyWithQs.init 1 1 1 false 0 0 IP3).Q_targets
        = (PolicyWithQs.init 1 1 1 false 0 0 IP3).Qs := by
  constructor
  · decide
  · decide

/-- C3 amended: at construction every Q_target group is an exact copy of its
corresponding Q group, but the policy_target group keeps its own independent
fresh initialization — the constructor never copies the policy group's initial
parameters onto it. -/
theorem init_copies_Q_targets_only (Q_num : ℕ) (tau : ℚ) (delay : ℕ)
    (auto : Bool) (ia fa : ℚ) (ip : InitParams)
    (hq : ip.Q_inits.length = Q_num) (hqt : ip.Q_target_inits.length = Q_num) :
    (PolicyWithQs.init Q_num tau delay auto ia fa ip).Q_targets
        = (PolicyWithQs.init Q_num tau delay auto ia fa ip).Qs
    ∧ (PolicyWithQs.init Q_num tau delay auto ia fa ip).policy.weights
        = ip.policy_init
    ∧ (PolicyWithQs.init Q_num tau delay auto ia fa ip).policy_target.weights
        = ip.policy_target_init := by
  refine ⟨?_, rfl, rfl⟩
  show (List.zipWith (fun qi _ => MLPNet.mk qi) ip.Q_inits ip.Q_target_inits
    ++ (ip.Q_target_inits.map MLPNet.mk).drop ip.Q_inits.length)
    = ip.Q_inits.map MLPNet.mk
  rw [zipWith_mk_left ip.Q_inits ip.Q_target_inits (by rw [hq, hqt])]
  rw [List.drop_eq_nil_of_le (by simp [hq, hqt])]
  simp

theorem init_copies_Q_targets_only_witness :
    (PolicyWithQs.init 1 1 1 false 0 0 IP3).Q_targets
        = (PolicyWithQs.init 1 1 1 false 0 0 IP3).Qs
    ∧ (PolicyWithQs.init 1 1 1 false 0 0 IP3).policy.weights = IP3.policy_init
    ∧ (PolicyWithQs.init 1 1 1 false 0 0 IP3).policy_target.weights
        = IP3.policy_target_init :=
  init_copies_Q_targets_only 1 1 1 false 0 0 IP3 (by decide) (by decide)

/-! ### C10 -/

theorem take_flatten_slices (g : List Tensor) (L : ℕ) :
    ∀ (k : ℕ),
    ((List.range k).map (fun i => (g.drop (i * L)).take L)).flatten
      = g.take (L * k) := by
  intro k
  induction k with
  | zero => simp
  | succ n ih =>
    rw [List.range_succ, List.map_append, List.flatten_append, ih]
    simp only [List.map_cons, List.map_nil, List.flatten_cons, List.flatten_nil,
      List.append_nil]
    rw [Nat.mul_succ, List.take_add, Nat.mul_comm n L]

theorem getD_map_mk (l : List Weights) (i : ℕ) (h : i < l.length) :
    (l.map MLPNet.mk).getD i ⟨[]⟩ = MLPNet.mk (l.getD i []) := by
  rw [List.getD_eq_getElem _ _ (by simpa using h), List.getD_eq_getElem _ _ h]
  simp

/-- C10: in the ensemble built by the constructor, every Q group holds the same
number `L` of trainable tensors, so the Q slices `grads[i*L:(i+1)*L]` taken by
`apply_gradients` are contiguous, pairwise disjoint, and together cover exactly
the leading `L * Q_num` entries of the gradient vector; the policy slicing then
starts at offset `L * Q_num`, computed from the first Q group's count alone. -/
theorem q_slices_partition_gradient_prefix (Q_num : ℕ) (tau : ℚ) (delay : ℕ)
    (auto : Bool) (ia fa : ℚ) (ip : InitParams) (L : ℕ) (grads : List Tensor)
    (hq : ip.Q_inits.length = Q_num) (hL : ∀ w ∈ ip.Q_inits, w.length = L)
    (hpos : 0 < Q_num) :
    ((List.range Q_num).map
        (qGradSlice (PolicyWithQs.init Q_num tau delay auto ia fa ip) grads)).flatten
      = grads.take (L * Q_num)
    ∧ delayedStart (PolicyWithQs.init Q_num tau delay auto ia fa ip) = L * Q_num := by
  set e := PolicyWithQs.init Q_num tau delay auto ia fa ip with he
  have hQs : e.Qs = ip.Q_inits.map MLPNet.mk := rfl
  have hlen : e.Qs.length = Q_num := by rw [hQs]; simpa using hq
  have hqL : ∀ i, i < Q_num → qL e i = L := by
    intro i hi
    have hi' : i < e.Qs.length := by omega
    rw [qL, modelAt_lt e i hi', hQs, getD_map_mk ip.Q_inits i (by omega)]
    have hmem : ip.Q_inits.getD i [] ∈ ip.Q_inits := by
      rw [List.getD_eq_getElem _ _ (by omega)]
      exact List.getElem_mem _
    simpa [Model.trainableWeights] using hL _ hmem
  constructor
  · have hmap : (List.range Q_num).map (qGradSlice e grads)
        = (List.range Q_num).map (fun i => (grads.drop (i * L)).take L) := by
      apply List.map_congr_left
      intro i hi
      rw [List.mem_range] at hi
      rw [qGradSlice, hqL i hi]
    rw [hmap, take_flatten_slices]
  · show qL e 0 * e.Q_num = L * Q_num
    rw [hqL 0 hpos]
    rfl

/-- C10 witness inputs: two Q groups of one tensor each. -/
def IP10 : InitParams :=
  { policy_init := [[0]]
    policy_target_init := [[0]]
    Q_inits := [[[1]], [[2]]]
    Q_target_inits := [[[0]], [[0]]] }

theorem q_slices_partition_gradient_prefix_witness :
    ((List.range 2).map
        (qGradSlice (PolicyWithQs.init 2 1 1 false 0 0 IP10) [[5], [6], [7]])).flatten
      = ([[5], [6], [7]] : List Tensor).take (1 * 2)
    ∧ delayedStart (PolicyWithQs.init 2 1 1 false 0 0 IP10) = 1 * 2 :=
  q_slices_partition_gradient_prefix 2 1 1 false 0 0 IP10 1 [[5], [6], [7]]
    (by decide) (by decide) (by decide)

/-! ### C7 -/

/-- Embedded float value for the non-finiteness claims: a finite rational or one
of the non-finite IEEE values (NaN, positive and negative infinity). -/
inductive FVal where
  | fin (q : ℚ)
  | nan
  | inf
  | ninf
deriving DecidableEq, Repr

/-- `np.isnan`. -/
def FVal.isnan : FVal → Bool
  | .nan => true
  | _ => false

/-- `np.isfinite`: false exactly on NaN and the infinities. -/
def FVal.isfinite : FVal → Bool
  | .fin _ => true
  | _ => false

/-- The error raised by a failed Python `assert` statement. -/
inductive PyError where
  | assertionError
deriving DecidableEq, Repr

/-- `PolicyWithValue.compute_neglogp(obs, action)`: run the policy network (the
opaque forward function `policy`), `assert not np.isnan(logits[0][0])` — which
inspects only element `[0][0]` and only for NaN — then return the
distribution's neglogp of the action (the opaque `neglogpF`; this claim is
about the guard's control flow, not the numeric formula).  The `headD`
defaults are unreachable for the non-empty batches the source feeds in. -/
def PolicyWithValue.compute_neglogp (policy : ℕ → List (List FVal))
    (neglogpF : List (List FVal) → ℕ → FVal) (obs act : ℕ) : Except PyError FVal :=
  let logits := policy obs
  if ((logits.headD []).headD (FVal.fin 0)).isnan then
    Except.error PyError.assertionError
  else Except.ok (neglogpF logits act)

/-- `PolicyWithQs.compute_neglogp(obs, act)`: computes the neglogp directly —
the source contains no finiteness check of any kind on this path. -/
def PolicyWithQs.compute_neglogp (policy : ℕ → List (List FVal))
    (neglogpF : List (List FVal) → ℕ → FVal) (obs act : ℕ) : Except PyError FVal :=
  Except.ok (neglogpF (policy obs) act)

/-- C7 counterexample: a policy output containing a non-finite value (a NaN not
at position `[0][0]`) passes both variants without any error — and the
Q-ensemble variant, which the claim is about, passes even a NaN at `[0][0]`. -/
theorem compute_neglogp_no_nonfinite_guard :
    (FVal.nan ∈ ([[FVal.fin 0, FVal.nan]] : List (List FVal)).flatten
      ∧ FVal.nan.isfinite = false)
    ∧ PolicyWithQs.compute_neglogp (fun _ => [[FVal.nan]])
        (fun _ _ => FVal.fin 0) 0 0 = Except.ok (FVal.fin 0)
    ∧ PolicyWithValue.compute_neglogp (fun _ => [[FVal.fin 0, FVal.nan]])
        (fun _ _ => FVal.fin 0) 0 0 = Except.ok (FVal.fin 0) :=
  ⟨⟨by decide, by decide⟩, rfl, rfl⟩

/-- C7 amended: `PolicyWithQs.compute_neglogp` performs no finiteness check and
always returns the computed negative log-probability, and
`PolicyWithValue.compute_neglogp` raises (an `AssertionError`, not a dedicated
non-finite-value error) exactly when element `[0][0]` of the policy output is
NaN — infinities anywhere and NaNs at other positions pass silently. -/
theorem compute_neglogp_guard_characterization
    (policy : ℕ → List (List FVal)) (neglogpF : List (List FVal) → ℕ → FVal)
    (obs act : ℕ) :
    PolicyWithQs.compute_neglogp policy neglogpF obs act
      = Except.ok (neglogpF (policy obs) act)
    ∧ (PolicyWithValue.compute_neglogp policy neglogpF obs act
          = Except.error PyError.assertionError
        ↔ (((policy obs).headD []).headD (FVal.fin 0)).isnan = true) := by
  refine ⟨rfl, ?_⟩
  rw [PolicyWithValue.compute_neglogp]
  by_cases h : (((policy obs).headD []).headD (FVal.fin 0)).isnan = true
  · simp [h]
  · simp [h]

/-! ### Gaussian distribution (C8, C9) -/

/-- `tf.split(logits, num_or_size_splits=2, axis=-1)`, first half: the mean.
(The source requires an even width; the claims only use even-length logits.) -/
def GuassianDistribution.meanOf {K : Type} (logits : List K) : List K :=
  logits.take (logits.length / 2)

/-- Second half of the split: the log standard deviation. -/
def GuassianDistribution.logstdOf {K : Type} (logits : List K) : List K :=
  logits.drop (logits.length / 2)

/-- `neglogp(sample) = 0.5 * reduce_sum(square((sample - mean) / std))
+ 0.5 * log(2π) * cast(shape(sample)[-1]) + reduce_sum(logstd)` with
`std = exp(logstd)`.  The backend's `exp` and `log` are passed explicitly so
the definition stays executable over any field; the claims instantiate them
with `Real.exp` / `Real.log` and `piK = Real.pi`. -/
def GuassianDistribution.neglogp {K : Type} [Field K] (expK logK : K → K)
    (piK : K) (logits sample : List K) : K :=
  (1/2) * (List.zipWith (fun d s => (d / s)^2)
      (List.zipWith (fun a b => a - b) sample (GuassianDistribution.meanOf logits))
      ((GuassianDistribution.logstdOf logits).map expK)).sum
    + (1/2) * logK (2 * piK) * (sample.length : K)
    + (GuassianDistribution.logstdOf logits).sum

/-- `kl_divergence(other) = reduce_sum(other.logstd - self.logstd
+ (self.std^2 + (self.mean - other.mean)^2) / (2 * other.std^2) - 0.5)`,
element-wise over the paired (mean, logstd) components. -/
def GuassianDistribution.kl_divergence {K : Type} [Field K] (expK : K → K)
    (logitsA logitsB : List K) : K :=
  (List.zipWith
      (fun p q => q.2 - p.2
        + ((expK p.2)^2 + (p.1 - q.1)^2) / (2 * (expK q.2)^2) - 1/2)
      ((GuassianDistribution.meanOf logitsA).zip (GuassianDistribution.logstdOf logitsA))
      ((GuassianDistribution.meanOf logitsB).zip (GuassianDistribution.logstdOf logitsB))).sum

/-! ### C9 -/

/-- C9: the KL divergence of a Gaussian distribution against a distribution
built from the same logits (same mean and log_std) is exactly zero. -/
theorem kl_divergence_self_eq_zero (logits : List ℝ) :
    GuassianDistribution.kl_divergence Real.exp logits logits = 0 := by
  rw [GuassianDistribution.kl_divergence]
  generalize (GuassianDistribution.meanOf logits).zip
    (GuassianDistribution.logstdOf logits) = ps
  induction ps with
  | nil => simp
  | cons p t ih =>
    rw [List.zipWith_cons_cons, List.sum_cons, ih]
    have he : Real.exp p.2 ≠ 0 := Real.exp_ne_zero p.2
    field_simp
    ring

/-! ### C8 -/

/-- Modelled from the spec: the claimed closed form
`0.5 * sum(((x - mean)/std)^2) + 0.5 * D * ln(2π) + sum(log_std)` with
`std = exp(log_std)` and `D` the action dimensionality (the length of the mean
half). -/
def neglogpSpecFormula {K : Type} [Field K] (expK : K → K) (lnTwoPi : K)
    (mean logstd x : List K) : K :=
  (1/2) * (List.zipWith (fun d s => (d / s)^2)
      (List.zipWith (fun a b => a - b) x mean) (logstd.map expK)).sum
    + (1/2) * (mean.length : K) * lnTwoPi
    + logstd.sum

/-- Modelled from the spec: the probability density of an independent
multivariate Gaussian with the given per-dimension mean and log standard
deviation, as a product of the one-dimensional densities
`(std * sqrt(2π))⁻¹ * exp(-(x - mean)² / (2 std²))`. -/
def gaussPdfProd {K : Type} [Field K] (expK sqrtK : K → K) (piK : K)
    (mean logstd x : List K) : K :=
  (List.zipWith
      (fun p xi => ((expK p.2) * sqrtK (2 * piK))⁻¹
        * expK (-((xi - p.1)^2) / (2 * (expK p.2)^2)))
      (mean.zip logstd) x).prod

theorem gaussPdfProd_pos (mean logstd x : List ℝ) :
    0 < gaussPdfProd Real.exp Real.sqrt Real.pi mean logstd x := by
  rw [gaussPdfProd]
  generalize mean.zip logstd = ps
  induction ps generalizing x with
  | nil => simp
  | cons p t ih =>
    cases x with
    | nil => simp
    | cons xi xt =>
      rw [List.zipWith_cons_cons, List.prod_cons]
      have h1 : 0 < ((Real.exp p.2) * Real.sqrt (2 * Real.pi))⁻¹
          * Real.exp (-((xi - p.1)^2) / (2 * (Real.exp p.2)^2)) := by positivity
      exact mul_pos h1 (ih xt)

theorem specFormula_eq_neglog_prod :
    ∀ (x mean logstd : List ℝ),
    mean.length = x.length → logstd.length = x.length →
    neglogpSpecFormula Real.exp (Real.log (2 * Real.pi)) mean logstd x
      = - Real.log (gaussPdfProd Real.exp Real.sqrt Real.pi mean logstd x) := by
  intro x
  induction x with
  | nil =>
    intro mean logstd hm hl
    have hmean : mean = [] := List.length_eq_zero.mp (by simpa using hm)
    have hlog : logstd = [] := List.length_eq_zero.mp (by simpa using hl)
    subst hmean hlog
    simp [neglogpSpecFormula, gaussPdfProd]
  | cons xi xt ih =>
    intro mean logstd hm hl
    cases mean with
    | nil => simp at hm
    | cons m mt =>
      cases logstd with
      | nil => simp at hl
      | cons l lt =>
        have hm' : mt.length = xt.length := by simpa using hm
        have hl' : lt.length = xt.length := by simpa using hl
        have ihx := ih mt lt hm' hl'
        have hF : (0:ℝ) < ((Real.exp l) * Real.sqrt (2 * Real.pi))⁻¹
            * Real.exp (-((xi - m)^2) / (2 * (Real.exp l)^2)) := by positivity
        have hP : (0:ℝ) < gaussPdfProd Real.exp Real.sqrt Real.pi mt lt xt :=
          gaussPdfProd_pos mt lt xt
        have hprod : gaussPdfProd Real.exp Real.sqrt Real.pi (m :: mt) (l :: lt) (xi :: xt)
            = (((Real.exp l) * Real.sqrt (2 * Real.pi))⁻¹
                * Real.exp (-((xi - m)^2) / (2 * (Real.exp l)^2)))
              * gaussPdfProd Real.exp Real.sqrt Real.pi mt lt xt := by
          rw [gaussPdfProd, gaussPdfProd, List.zip_cons_cons, List.zipWith_cons_cons,
            List.prod_cons]
        have hsqrt : Real.log (Real.sqrt (2 * Real.pi)) = Real.log (2 * Real.pi) / 2 :=
          Real.log_sqrt (by positivity)
        have hlogF : Real.log (((Real.exp l) * Real.sqrt (2 * Real.pi))⁻¹
              * Real.exp (-((xi - m)^2) / (2 * (Real.exp l)^2)))
            = -(l + Real.log (2 * Real.pi) / 2)
              + (-((xi - m)^2) / (2 * (Real.exp l)^2)) := by
          rw [Real.log_mul (by positivity) (by positivity), Real.log_inv,
            Real.log_mul (Real.exp_ne_zero l) (by positivity), Real.log_exp,
            Real.log_exp, hsqrt]
        rw [hprod, Real.log_mul (ne_of_gt hF) (ne_of_gt hP), hlogF]
        rw [neglogpSpecFormula, List.zipWith_cons_cons, List.map_cons,
          List.zipWith_cons_cons, List.sum_cons, List.sum_cons]
        rw [neglogpSpecFormula] at ihx
        have hexp : Real.exp l ≠ 0 := Real.exp_ne_zero l
        have hcast : ((m :: mt).length : ℝ) = (mt.length : ℝ) + 1 := by
          push_cast [List.length_cons]
          ring
        rw [hcast]
        have hrest : (1/2) * (List.zipWith (fun d s => (d / s)^2)
              (List.zipWith (fun a b => a - b) xt mt) (lt.map Real.exp)).sum
            + (1/2) * (mt.length : ℝ) * Real.log (2 * Real.pi) + lt.sum
            = - Real.log (gaussPdfProd Real.exp Real.sqrt Real.pi mt lt xt) := ihx
        have hgoal : (1/2) * (((xi - m) / Real.exp l)^2
              + (List.zipWith (fun d s => (d / s)^2)
                  (List.zipWith (fun a b => a - b) xt mt) (lt.map Real.exp)).sum)
            + (1/2) * ((mt.length : ℝ) + 1) * Real.log (2 * Real.pi)
            + (l + lt.sum)
            = (1/2) * ((xi - m) / Real.exp l)^2 + (1/2) * Real.log (2 * Real.pi) + l
              + ((1/2) * (List.zipWith (fun d s => (d / s)^2)
                  (List.zipWith (fun a b => a - b) xt mt) (lt.map Real.exp)).sum
                + (1/2) * (mt.length : ℝ) * Real.log (2 * Real.pi) + lt.sum) := by
          ring
        rw [hgoal, hrest]
        have hsq : (1/2) * ((xi - m) / Real.exp l)^2
            = (xi - m)^2 / (2 * (Real.exp l)^2) := by
          field_simp
        rw [hsq]
        ring

/-- C8: `neglogp` of the continuous Gaussian distribution equals, per batch
element, `0.5 * sum(((x - mean)/std)^2) + 0.5 * D * ln(2π) + sum(log_std)`
with `mean`, `log_std` the two equal halves of the logits, `std = exp(log_std)`
and `D` the action dimensionality — and this closed form is the exact negative
log-density of the corresponding independent multivariate Gaussian. -/
theorem neglogp_matches_spec_formula (logits sample : List ℝ)
    (h : logits.length = 2 * sample.length) :
    GuassianDistribution.neglogp Real.exp Real.log Real.pi logits sample
      = neglogpSpecFormula Real.exp (Real.log (2 * Real.pi))
          (GuassianDistribution.meanOf logits)
          (GuassianDistribution.logstdOf logits) sample
    ∧ neglogpSpecFormula Real.exp (Real.log (2 * Real.pi))
          (GuassianDistribution.meanOf logits)
          (GuassianDistribution.logstdOf logits) sample
      = - Real.log (gaussPdfProd Real.exp Real.sqrt Real.pi
          (GuassianDistribution.meanOf logits)
          (GuassianDistribution.logstdOf logits) sample) := by
  have hm : (GuassianDistribution.meanOf logits).length = sample.length := by
    rw [GuassianDistribution.meanOf, List.length_take, h]
    omega
  have hl : (GuassianDistribution.logstdOf logits).length = sample.length := by
    rw [GuassianDistribution.logstdOf, List.length_drop, h]
    omega
  constructor
  · rw [GuassianDistribution.neglogp, neglogpSpecFormula, hm]
    ring
  · exact specFormula_eq_neglog_prod sample _ _ hm hl

theorem neglogp_matches_spec_formula_witness :
    GuassianDistribution.neglogp Real.exp Real.log Real.pi [(0:ℝ), 0] [(0:ℝ)]
      = neglogpSpecFormula Real.exp (Real.log (2 * Real.pi))
          (GuassianDistribution.meanOf [(0:ℝ), 0])
          (GuassianDistribution.logstdOf [(0:ℝ), 0]) [(0:ℝ)]
    ∧ neglogpSpecFormula Real.exp (Real.log (2 * Real.pi))
          (GuassianDistribution.meanOf [(0:ℝ), 0])
          (GuassianDistribution.logstdOf [(0:ℝ), 0]) [(0:ℝ)]
      = - Real.log (gaussPdfProd Real.exp Real.sqrt Real.pi
          (GuassianDistribution.meanOf [(0:ℝ), 0])
          (GuassianDistribution.logstdOf [(0:ℝ), 0]) [(0:ℝ)]) :=
  neglogp_matches_spec_formula [0, 0] [0] (by decide)
